import Mathlib

/-!
Shallow embedding of the torrent content-resolution and range-streaming
gateway (files `src/api/index.js` and `src/unnamed/part_000` of the
repository).  Strings are modelled as `List Char`.  The two source files
share the magnet parsing and range arithmetic; they differ in the catalog
builder (`part_000` expands ZIP archives, `index.js` filters to
video/image), in the streaming endpoint (`part_000` has a separate
whole-file image branch and a close-handler, `index.js` has neither) and
in the extension classifier (`part_000` knows `.zip`).
-/

namespace MoviesBackend

/-- ASCII lowercase conversion, the effect of JavaScript
`String.prototype.toLowerCase` on the ASCII strings this server handles. -/
def asciiLower (c : Char) : Char :=
  if 'A' ≤ c ∧ c ≤ 'Z' then Char.ofNat (c.toNat + 32) else c

/-- Lowercase an ASCII string. -/
def lowerStr (s : List Char) : List Char := s.map asciiLower

/-- Membership in the regex character class `[a-fA-F0-9]` of
`extractInfoHash`. -/
def isHexDigit (c : Char) : Bool :=
  ('0' ≤ c ∧ c ≤ '9') ∨ ('a' ≤ c ∧ c ≤ 'f') ∨ ('A' ≤ c ∧ c ≤ 'F')

/-- The literal part `urn:btih:` of the regex in `extractInfoHash`. -/
def btihTag : List Char := 'u' :: 'r' :: 'n' :: ':' :: 'b' :: 't' :: 'i' :: 'h' :: ':' :: []

/-- Whether `pat` occurs verbatim at the start of `l`. -/
def matchesAt : List Char → List Char → Bool
  | [], _ => true
  | _ :: _, [] => false
  | p :: ps, c :: cs => p = c ∧ matchesAt ps cs

/-- Attempt the regex `urn:btih:([a-fA-F0-9]\x7b40\x7d)` at the head of `l`:
the tag must occur here, followed by at least 40 hex digits; on success the
captured 40 digits are returned. -/
def tryBtihAt (l : List Char) : Option (List Char) :=
  if matchesAt btihTag l then
    if ((l.drop btihTag.length).take 40).length = 40 ∧
        ((l.drop btihTag.length).take 40).all isHexDigit
    then some ((l.drop btihTag.length).take 40) else none
  else none

/-- Leftmost-match scan of the regex over the whole string, the semantics of
JavaScript `magnet.match(/urn:btih:([a-fA-F0-9]\x7b40\x7d)/)`. -/
def findBtih : List Char → Option (List Char)
  | [] => none
  | c :: rest =>
    match tryBtihAt (c :: rest) with
    | some run => some run
    | none => findBtih rest

/-- Embedding of `extractInfoHash` (identical in both source files):
`const match = magnet.match(/urn:btih:([a-fA-F0-9]\x7b40\x7d)/);
 return match ? match[1].toLowerCase() : null;` -/
def extractInfoHash (magnet : List Char) : Option (List Char) :=
  (findBtih magnet).map lowerStr

/-- The last path component, the effect of Node's basename step inside
`path.extname` for POSIX paths. -/
def jsBasename (l : List Char) : List Char :=
  ((l.reverse).takeWhile (fun c => c ≠ '/')).reverse

/-- Model of Node `path.extname`: the suffix of the basename from its last
dot, empty when there is no dot or the only dot begins the basename (hidden
files), and empty on the special basename `..`. -/
def extname (l : List Char) : List Char :=
  let b := jsBasename l
  if b = ['.', '.'] then []
  else
    let revAfter := (b.reverse).takeWhile (fun c => c ≠ '.')
    if revAfter.length + 1 < b.length then '.' :: revAfter.reverse
    else []

/-- Content kinds produced by the classifiers: `part_000` distinguishes
`zip`, `index.js` never produces it. -/
inductive FileType where
  | video
  | image
  | zip
  | other
deriving DecidableEq, Repr

/-- Video extensions recognised by both classifiers. -/
def videoExts : List (List Char) :=
  [['.', 'm', 'p', '4'], ['.', 'm', 'k', 'v'], ['.', 'a', 'v', 'i']]

/-- Image extensions recognised by both classifiers. -/
def imageExts : List (List Char) :=
  [['.', 'j', 'p', 'g'], ['.', 'j', 'p', 'e', 'g'], ['.', 'p', 'n', 'g'], ['.', 'g', 'i', 'f']]

/-- Embedding of `getFileType` from `src/unnamed/part_000`: lowercased
extension looked up in the video list, then the image list, then `.zip`,
else `other`. -/
def getFileType (fileName : List Char) : FileType :=
  let ext := lowerStr (extname fileName)
  if videoExts.contains ext then .video
  else if imageExts.contains ext then .image
  else if ext = ['.', 'z', 'i', 'p'] then .zip
  else .other

/-- Embedding of `getFileType` from `src/api/index.js`: same lists but no
`.zip` case, so archives classify as `other`. -/
def getFileTypeApi (fileName : List Char) : FileType :=
  let ext := lowerStr (extname fileName)
  if videoExts.contains ext then .video
  else if imageExts.contains ext then .image
  else .other

/-- A raw file handle of a swarm session as the WebTorrent engine exposes
it to this code: display name, relative path and byte length. -/
structure RawFile where
  name : List Char
  path : List Char
  length : Nat
deriving DecidableEq, Repr

/-- A catalog entry as built by `getFiles` in either source file:
`\x7bname, length, path, type\x7d`. -/
structure CatalogFile where
  name : List Char
  length : Nat
  path : List Char
  type : FileType
deriving DecidableEq, Repr

/-- One entry of a ZIP central directory as `yauzl` reports it to the
`entry` handler of `extractZip`. -/
structure ZipEntry where
  fileName : List Char
  uncompressedSize : Nat
deriving DecidableEq, Repr

/-- Whether a ZIP entry name denotes a directory, the test
`entry.fileName.endsWith('/')` in `extractZip`. -/
def endsWithSlash (l : List Char) : Bool :=
  l.getLast? = some '/'

/-- Embedding of the `entry`-event loop of `extractZip` in
`src/unnamed/part_000`: walk the central directory in order, skip directory
entries, classify the rest by `getFileType` and push video/image entries
onto the accumulator with the entry's uncompressed size as length and
`zipFile.path + '/' + entry.fileName` as path. -/
def extractZipLoop (zipPath : List Char) : List ZipEntry → List CatalogFile → List CatalogFile
  | [], acc => acc
  | e :: rest, acc =>
    if endsWithSlash e.fileName then extractZipLoop zipPath rest acc
    else
      match getFileType e.fileName with
      | .video => extractZipLoop zipPath rest
          (acc ++ [⟨e.fileName, e.uncompressedSize, zipPath ++ '/' :: e.fileName, .video⟩])
      | .image => extractZipLoop zipPath rest
          (acc ++ [⟨e.fileName, e.uncompressedSize, zipPath ++ '/' :: e.fileName, .image⟩])
      | _ => extractZipLoop zipPath rest acc

/-- The two rejection paths of `extractZip`: the read stream erroring
(`zipFile.createReadStream` callback `err`) and `yauzl.fromBuffer`
reporting a malformed archive. -/
inductive ZipErr where
  | readError
  | parseError
deriving DecidableEq, Repr

/-- Embedding of the promise returned by `extractZip`: the archive's bytes
are obtained and parsed by the external engine and `yauzl`, modelled by the
oracle `zipData`; a rejection is propagated, a parse yields the entry loop
over the central directory. -/
def extractZip (zipData : RawFile → Except ZipErr (List ZipEntry)) (f : RawFile) :
    Except ZipErr (List CatalogFile) :=
  match zipData f with
  | .error e => .error e
  | .ok entries => .ok (extractZipLoop f.path entries [])

/-- Embedding of `getFiles` from `src/unnamed/part_000`: iterate the
session's raw files in order; a file classified `zip` is awaited through
`extractZip` (a rejection propagates and aborts the whole computation,
there is no try/catch), every other file is pushed as one entry carrying
its own classification. -/
def getFiles (zipData : RawFile → Except ZipErr (List ZipEntry)) :
    List RawFile → Except ZipErr (List CatalogFile)
  | [] => .ok []
  | f :: rest =>
    if getFileType f.name = .zip then
      match extractZip zipData f with
      | .error e => .error e
      | .ok ex =>
        match getFiles zipData rest with
        | .error e => .error e
        | .ok l => .ok (ex ++ l)
    else
      match getFiles zipData rest with
      | .error e => .error e
      | .ok l => .ok (⟨f.name, f.length, f.path, getFileType f.name⟩ :: l)

/-- Embedding of `getFiles` from `src/api/index.js`: map every raw file to
an entry classified by `getFileTypeApi`, then keep only video and image
entries. -/
def getFilesApi (files : List RawFile) : List CatalogFile :=
  (files.map (fun f => (⟨f.name, f.length, f.path, getFileTypeApi f.name⟩ : CatalogFile))).filter
    (fun cf => cf.type = .video ∨ cf.type = .image)

/-- The literal `bytes=` removed from the Range header. -/
def bytesTag : List Char := 'b' :: 'y' :: 't' :: 'e' :: 's' :: '=' :: []

/-- Effect of `range.replace(/bytes=/, '')`: delete the first occurrence of
`bytes=`, leave the string unchanged when it never occurs. -/
def removeBytesTag : List Char → List Char
  | [] => []
  | c :: rest =>
    if matchesAt bytesTag (c :: rest) then (c :: rest).drop bytesTag.length
    else c :: removeBytesTag rest

/-- Effect of JavaScript `s.split('-')`: the list of dash-separated pieces,
`[""]` on the empty string. -/
def splitOnDash : List Char → List (List Char)
  | [] => [[]]
  | c :: rest =>
    let r := splitOnDash rest
    if c = '-' then [] :: r
    else
      match r with
      | [] => [[c]]
      | h :: t => (c :: h) :: t

/-- Decimal digit test for the `Number()` model. -/
def isDigit (c : Char) : Bool := '0' ≤ c ∧ c ≤ '9'

/-- Decimal value of a digit string. -/
def digitsToNat (s : List Char) : Nat :=
  s.foldl (fun acc c => acc * 10 + (c.toNat - 48)) 0

/-- Model of the JavaScript `Number()` coercion restricted to the strings a
dash-split Range header can produce (they contain no dash): the empty
string coerces to 0, a nonempty digit string to its decimal value, and
anything else to `NaN`, modelled as `none`. -/
def jsNumber (s : List Char) : Option Int :=
  if s = [] then some 0
  else if s.all isDigit then some (digitsToNat s)
  else none

/-- Effect of `Number()` applied to an element that `[start, end]`
destructuring may have left `undefined`: `Number(undefined)` is `NaN`. -/
def jsNumberOpt : Option (List Char) → Option Int
  | none => none
  | some s => jsNumber s

/-- Embedding of
`const [start, end] = range.replace(/bytes=/, '').split('-').map(Number)`:
the first two dash-split pieces of the header with `bytes=` removed, each
coerced by `Number()`. -/
def parseStartEnd (range : List Char) : Option Int × Option Int :=
  let parts := splitOnDash (removeBytesTag range)
  (jsNumberOpt (parts.get? 0), jsNumberOpt (parts.get? 1))

/-- Embedding of
`const chunkEnd = end || Math.min(start + 10 ** 6, fileSize - 1)`:
`end` is used when it is a truthy number (neither `NaN` nor 0); otherwise
the default `Math.min(start + 1000000, fileSize - 1)` applies, which is
`NaN` when `start` is `NaN`. -/
def chunkEndOf (start? end? : Option Int) (fileSize : Nat) : Option Int :=
  let deflt := start?.map (fun s => min (s + 1000000) ((fileSize : Int) - 1))
  match end? with
  | some e => if e = 0 then deflt else some e
  | none => deflt

/-- Embedding of `contentLength = chunkEnd - start + 1` on possibly-`NaN`
operands. -/
def contentLengthOf (start? chunkEnd? : Option Int) : Option Int :=
  match start?, chunkEnd? with
  | some s, some e => some (e - s + 1)
  | _, _ => none

/-- A torrent as the handlers see it in `client.torrents`: its info-hash
and its raw file list. -/
structure Torrent where
  infoHash : List Char
  files : List RawFile
deriving DecidableEq, Repr

/-- The observable outcome of one invocation of the
`/stream/:magnet/:filename` handler: the three early returns, the 400 for
a missing Range header, a 206 partial-content response carrying the
computed `start`, `chunkEnd` and file size, or `part_000`'s whole-file
image response carrying the `Content-Type` extension. -/
inductive StreamResponse where
  | invalidMagnet
  | torrentNotFound
  | fileNotFound
  | requiresRange
  | video206 (start chunkEnd : Option Int) (fileSize : Nat)
  | imageWhole (ext : List Char)
deriving DecidableEq, Repr

/-- Embedding of the `/stream/:magnet/:filename` handler of
`src/unnamed/part_000`: extract the info-hash (400 on failure), look up the
torrent (404), look up the file by name (404); a file classified `video`
requires a Range header (400 when absent) and is answered 206 with the
parsed start and the computed chunk end; every other file falls through to
the image branch and is piped whole with Content-Type
`image/` + extension without its leading dot. -/
def streamHandler (torrents : List Torrent) (magnet filename : List Char)
    (rangeHeader : Option (List Char)) : StreamResponse :=
  match extractInfoHash magnet with
  | none => .invalidMagnet
  | some ih =>
    match torrents.find? (fun t => t.infoHash = ih) with
    | none => .torrentNotFound
    | some t =>
      match t.files.find? (fun f => f.name = filename) with
      | none => .fileNotFound
      | some f =>
        if getFileType f.name = .video then
          match rangeHeader with
          | none => .requiresRange
          | some r =>
            let se := parseStartEnd r
            .video206 se.1 (chunkEndOf se.1 se.2 f.length) f.length
        else .imageWhole ((extname f.name).drop 1)

/-- Embedding of the `/stream/:magnet/:filename` handler of
`src/api/index.js`: same resolution steps, but there is no image branch —
every found file requires a Range header and is answered 206 with the same
range computation. -/
def streamHandlerApi (torrents : List Torrent) (magnet filename : List Char)
    (rangeHeader : Option (List Char)) : StreamResponse :=
  match extractInfoHash magnet with
  | none => .invalidMagnet
  | some ih =>
    match torrents.find? (fun t => t.infoHash = ih) with
    | none => .torrentNotFound
    | some t =>
      match t.files.find? (fun f => f.name = filename) with
      | none => .fileNotFound
      | some f =>
        match rangeHeader with
        | none => .requiresRange
        | some r =>
          let se := parseStartEnd r
          .video206 se.1 (chunkEndOf se.1 se.2 f.length) f.length

/-- Events observable on one in-flight piped stream: the response sink
being closed by the peer, and a buffer of `n` bytes being delivered from
the bounded read. -/
inductive StreamEvent where
  | close
  | data (n : Nat)
deriving DecidableEq, Repr

/-- Observable state of the pair (bounded read stream, response sink)
while a 206 response is being piped: whether the sink has closed, whether
the read stream has been destroyed, and how many bytes the read delivered
after the sink closed. -/
structure PipeState where
  closed : Bool
  destroyed : Bool
  bytesAfterClose : Nat
deriving DecidableEq, Repr

/-- State before any event is processed. -/
def initPipeState : PipeState := ⟨false, false, 0⟩

/-- One event processed against the callbacks the handler registered.
`destroyOnClose` records whether the handler installed
`res.on('close', () => stream.destroy())`; Node's `pipe` alone does not
destroy its source when the destination closes, so without that callback a
close event leaves the read stream alive.  A destroyed stream delivers no
further data; a live stream keeps delivering, and bytes arriving after the
sink closed are counted in `bytesAfterClose`. -/
def stepEvent (destroyOnClose : Bool) (st : PipeState) : StreamEvent → PipeState
  | .close => { st with closed := true, destroyed := st.destroyed || destroyOnClose }
  | .data n =>
    if st.destroyed then st
    else if st.closed then { st with bytesAfterClose := st.bytesAfterClose + n }
    else st

/-- Process a whole event trace from the initial state. -/
def runEvents (destroyOnClose : Bool) (evs : List StreamEvent) : PipeState :=
  evs.foldl (stepEvent destroyOnClose) initPipeState

/-- The `/stream` handler of `src/unnamed/part_000` registers
`res.on('close', () => stream.destroy())` on the video path. -/
def closeDestroyRegistered : Bool := true

/-- The `/stream` handler of `src/api/index.js` registers no `close`
callback at all: it only calls `file.createReadStream(...).pipe(res)`. -/
def closeDestroyRegisteredApi : Bool := false

/-- Concrete lowercase info-hash used by the worked examples. -/
def demoHash : List Char := ("0123456789abcdef0123456789abcdef01234567").toList

/-- Concrete magnet URI containing `urn:btih:` plus `demoHash` and a
trailing query parameter. -/
def demoMagnet : List Char :=
  ("magnet:?xt=urn:btih:0123456789abcdef0123456789abcdef01234567&dn=demo").toList

/-- Name of the demo video file. -/
def movieName : List Char := ("movie.mp4").toList

/-- A 5,000,000-byte video file, the size used by the spec's range
examples. -/
def demoVideoFile : RawFile := ⟨movieName, movieName, 5000000⟩

/-- A torrent session holding just the demo video file. -/
def demoTorrent : Torrent := ⟨demoHash, [demoVideoFile]⟩

/-- Name of the demo image file. -/
def posterName : List Char := ("poster.jpg").toList

/-- A small image file, used to exercise the image branch. -/
def posterFile : RawFile := ⟨posterName, posterName, 2048⟩

/-- A torrent session holding just the demo image file. -/
def imageTorrent : Torrent := ⟨demoHash, [posterFile]⟩

/-- Name of the demo short video used for the out-of-bounds range
example. -/
def shortName : List Char := ("short.mp4").toList

/-- A 100-byte video file. -/
def shortVideoFile : RawFile := ⟨shortName, shortName, 100⟩

/-- A torrent session holding just the 100-byte video file. -/
def shortTorrent : Torrent := ⟨demoHash, [shortVideoFile]⟩

/-- A raw file handle with a ZIP name. -/
def demoZipFile : RawFile := ⟨("archive.zip").toList, ("archive.zip").toList, 1000⟩

/-- Central directory of the demo archive: a video, an image and an empty
nested directory entry. -/
def demoZipEntries : List ZipEntry :=
  [⟨("movie.mp4").toList, 111⟩, ⟨("poster.jpg").toList, 22⟩, ⟨("nested/").toList, 0⟩]

/-- Oracle under which every archive parses to `demoZipEntries`. -/
def demoZipData : RawFile → Except ZipErr (List ZipEntry) := fun _ => .ok demoZipEntries

/-- The catalog that `getFiles` builds from the demo archive. -/
def demoCatalog : List CatalogFile :=
  [⟨("movie.mp4").toList, 111, ("archive.zip/movie.mp4").toList, .video⟩,
   ⟨("poster.jpg").toList, 22, ("archive.zip/poster.jpg").toList, .image⟩]

/-- A raw text file that classifies as `other`. -/
def readmeFile : RawFile := ⟨("readme.txt").toList, ("readme.txt").toList, 7⟩

/-- A well-formed video file next to the broken archive. -/
def clipFile : RawFile := ⟨("clip.mp4").toList, ("clip.mp4").toList, 50⟩

/-- A raw file handle with a ZIP name whose bytes will not parse. -/
def badZipFile : RawFile := ⟨("broken.zip").toList, ("broken.zip").toList, 10⟩

/-- Oracle under which every archive read fails to parse. -/
def failingZipData : RawFile → Except ZipErr (List ZipEntry) := fun _ => .error .parseError

/-- Whether a classified kind is a media kind surfaced from inside an
archive, the test `fileType === 'video' || fileType === 'image'` of
`extractZip`. -/
def mediaKind : FileType → Bool
  | .video => true
  | .image => true
  | _ => false

/-- The condition under which the `entry` handler of `extractZip` pushes a
central-directory entry: not a directory name, and of media kind. -/
def innerKept (e : ZipEntry) : Bool :=
  !endsWithSlash e.fileName && mediaKind (getFileType e.fileName)

/-- The catalog entry the `entry` handler of `extractZip` pushes for a
kept central-directory entry. -/
def innerEntry (zipPath : List Char) (e : ZipEntry) : CatalogFile :=
  ⟨e.fileName, e.uncompressedSize, zipPath ++ '/' :: e.fileName, getFileType e.fileName⟩

/-- The entry loop of `extractZip` appends to its accumulator exactly the
kept entries, in central-directory order. -/
theorem extractZipLoop_eq (zipPath : List Char) (entries : List ZipEntry) :
    ∀ acc : List CatalogFile,
      extractZipLoop zipPath entries acc =
        acc ++ (entries.filter innerKept).map (innerEntry zipPath) := by
  induction entries with
  | nil => intro acc; simp [extractZipLoop]
  | cons e rest ih =>
    intro acc
    by_cases hd : endsWithSlash e.fileName
    · have hk : innerKept e = false := by simp [innerKept, hd]
      simp [extractZipLoop, hd, hk, ih]
    · cases ht : getFileType e.fileName with
      | video =>
        have hk : innerKept e = true := by simp [innerKept, hd, mediaKind, ht]
        simp [extractZipLoop, hd, ht, hk, ih, innerEntry, List.filter_cons]
      | image =>
        have hk : innerKept e = true := by simp [innerKept, hd, mediaKind, ht]
        simp [extractZipLoop, hd, ht, hk, ih, innerEntry, List.filter_cons]
      | zip =>
        have hk : innerKept e = false := by simp [innerKept, mediaKind, ht]
        simp [extractZipLoop, hd, ht, hk, ih]
      | other =>
        have hk : innerKept e = false := by simp [innerKept, mediaKind, ht]
        simp [extractZipLoop, hd, ht, hk, ih]

/-- A pattern matches at the front of its own append. -/
theorem matchesAt_self (pat l : List Char) : matchesAt pat (pat ++ l) = true := by
  induction pat with
  | nil => simp [matchesAt]
  | cons c cs ih => simp [matchesAt, ih]

/-- A successful front match decomposes the scanned string. -/
theorem matchesAt_decomp : ∀ (pat l : List Char), matchesAt pat l = true →
    l = pat ++ l.drop pat.length
  | [], l, _ => by simp
  | _ :: _, [], h => by simp [matchesAt] at h
  | p :: ps, c :: cs, h => by
    simp only [matchesAt, Bool.and_eq_true, decide_eq_true_eq] at h
    obtain ⟨h1, h2⟩ := h
    have hrec := matchesAt_decomp ps cs h2
    simp only [List.length_cons, List.drop_succ_cons, List.cons_append, h1]
    exact List.cons_eq_cons.mpr ⟨rfl, hrec⟩

/-- A successful attempt of `tryBtihAt` decomposes its input as the tag,
the 40 captured hex digits and a remainder. -/
theorem tryBtihAt_some {l run : List Char} (h : tryBtihAt l = some run) :
    ∃ post, l = btihTag ++ (run ++ post) ∧ run.length = 40 ∧ run.all isHexDigit = true := by
  rw [tryBtihAt] at h
  split at h
  · split at h
    · rename_i hm hc
      injection h with h2
      subst h2
      refine ⟨(l.drop btihTag.length).drop 40, ?_, hc.1, hc.2⟩
      have hd := matchesAt_decomp _ _ hm
      rw [List.take_append_drop]
      exact hd
    · exact absurd h (by simp)
  · exact absurd h (by simp)

/-- The tag followed by 40 hex digits makes `tryBtihAt` succeed. -/
theorem tryBtihAt_token {run post : List Char} (hlen : run.length = 40)
    (hhex : run.all isHexDigit = true) :
    tryBtihAt (btihTag ++ (run ++ post)) = some run := by
  have h1 : (btihTag ++ (run ++ post)).drop btihTag.length = run ++ post :=
    List.drop_left _ _
  have h2 : (run ++ post).take 40 = run := by
    rw [← hlen]; exact List.take_left _ _
  rw [tryBtihAt, h1, h2]
  simp [matchesAt_self, hlen, hhex]

/-- A string where the attempt succeeds is found by the scan. -/
theorem findBtih_ne_none_of_try {l run : List Char} (h : tryBtihAt l = some run) :
    findBtih l ≠ none := by
  cases l with
  | nil =>
    rw [show tryBtihAt [] = none from rfl] at h
    cases h
  | cons c cs =>
    rw [findBtih, h]
    simp

/-- The scan still succeeds after any characters are put in front. -/
theorem findBtih_append {l : List Char} (h : findBtih l ≠ none) :
    ∀ pre : List Char, findBtih (pre ++ l) ≠ none := by
  intro pre
  induction pre with
  | nil => simpa using h
  | cons c cs ih =>
    rw [List.cons_append, findBtih]
    cases ht : tryBtihAt (c :: (cs ++ l)) with
    | some r => simp
    | none => simpa using ih

/-- A successful scan decomposes the string as some prefix, the tag, the
captured 40 hex digits and a remainder. -/
theorem findBtih_some : ∀ {s run : List Char}, findBtih s = some run →
    ∃ pre post, s = pre ++ (btihTag ++ (run ++ post)) ∧ run.length = 40 ∧
      run.all isHexDigit = true
  | [], run, h => by simp [findBtih] at h
  | c :: rest, run, h => by
    rw [findBtih] at h
    cases ht : tryBtihAt (c :: rest) with
    | some r =>
      rw [ht] at h
      injection h with h2
      subst h2
      obtain ⟨post, hdec, hlen, hhex⟩ := tryBtihAt_some ht
      exact ⟨[], post, by simpa using hdec, hlen, hhex⟩
    | none =>
      rw [ht] at h
      obtain ⟨pre, post, hdec, hlen, hhex⟩ := findBtih_some h
      exact ⟨c :: pre, post, by simp [hdec], hlen, hhex⟩

/-- Splitting a dash-free string followed by a dash yields that string as
the first piece. -/
theorem splitOnDash_append (s t : List Char) (hs : ('-') ∉ s) :
    splitOnDash (s ++ '-' :: t) = s :: splitOnDash t := by
  induction s with
  | nil => simp [splitOnDash]
  | cons c cs ih =>
    have hc : ¬(c = '-') := fun h => hs (h ▸ List.mem_cons_self c cs)
    have hcs : ('-') ∉ cs := fun h => hs (List.mem_cons_of_mem c h)
    simp [splitOnDash, hc, ih hcs]

/-- Invariant maintained while the close-destroying handler of `part_000`
is registered: no byte is ever delivered after the sink closed, because
closing destroys the read stream in the same step. -/
def pipeInv (st : PipeState) : Prop :=
  st.bytesAfterClose = 0 ∧ (st.closed = true → st.destroyed = true)

/-- A destroyed read stream stays destroyed under every further event. -/
theorem stepEvent_destroyed_mono (b : Bool) (st : PipeState) (ev : StreamEvent)
    (h : st.destroyed = true) : (stepEvent b st ev).destroyed = true := by
  cases ev <;> simp [stepEvent, h]

/-- A destroyed read stream stays destroyed along any trace. -/
theorem foldl_destroyed_mono (b : Bool) :
    ∀ (evs : List StreamEvent) (st : PipeState), st.destroyed = true →
      (evs.foldl (stepEvent b) st).destroyed = true
  | [], _, h => h
  | ev :: rest, st, h =>
    foldl_destroyed_mono b rest _ (stepEvent_destroyed_mono b st ev h)

/-- One step preserves the invariant when the close handler destroys the
stream. -/
theorem stepEvent_inv (st : PipeState) (ev : StreamEvent) (h : pipeInv st) :
    pipeInv (stepEvent true st ev) := by
  obtain ⟨h1, h2⟩ := h
  cases ev with
  | close => exact ⟨by simp [stepEvent, h1], by simp [stepEvent]⟩
  | data n =>
    by_cases hd : st.destroyed = true
    · simpa [stepEvent, hd] using ⟨h1, h2⟩
    · by_cases hc : st.closed = true
      · exact absurd (h2 hc) hd
      · simpa [stepEvent, hd, hc] using ⟨h1, h2⟩

/-- The invariant holds along any trace when the close handler destroys
the stream. -/
theorem foldl_inv : ∀ (evs : List StreamEvent) (st : PipeState), pipeInv st →
    pipeInv (evs.foldl (stepEvent true) st)
  | [], _, h => h
  | ev :: rest, st, h => foldl_inv rest _ (stepEvent_inv st ev h)

/-- Once a close event occurs in the trace, the stream ends up destroyed
when the close handler destroys the stream. -/
theorem foldl_close_destroyed : ∀ (evs : List StreamEvent) (st : PipeState),
    StreamEvent.close ∈ evs → (evs.foldl (stepEvent true) st).destroyed = true
  | [], _, h => absurd h (List.not_mem_nil _)
  | ev :: rest, st, h => by
    rcases List.mem_cons.mp h with rfl | h2
    · exact foldl_destroyed_mono true rest _ (by simp [stepEvent])
    · exact foldl_close_destroyed rest _ h2

/-- Every entry the `index.js` catalog builder returns survives its
video-or-image filter. -/
theorem getFilesApi_kinds (gs : List RawFile) (cf : CatalogFile) (hcf : cf ∈ getFilesApi gs) :
    cf.type = .video ∨ cf.type = .image := by
  rw [getFilesApi, List.mem_filter] at hcf
  exact of_decide_eq_true hcf.2

/-- A catalog successfully built by the ZIP-aware builder never surfaces a
`zip`-kind entry, and each archive's kept inner entries all appear in it. -/
theorem getFiles_ok_inv (zipData : RawFile → Except ZipErr (List ZipEntry)) :
    ∀ (files : List RawFile) (l : List CatalogFile), getFiles zipData files = .ok l →
      (∀ cf ∈ l, cf.type ≠ .zip) ∧
      (∀ f ∈ files, getFileType f.name = .zip →
        ∃ entries, zipData f = .ok entries ∧
          ∀ cf ∈ extractZipLoop f.path entries [], cf ∈ l)
  | [], l, h => by
    simp only [getFiles, Except.ok.injEq] at h
    subst h
    exact ⟨fun cf hcf => absurd hcf (List.not_mem_nil cf),
      fun f hf => absurd hf (List.not_mem_nil f)⟩
  | f :: rest, l, h => by
    by_cases hz : getFileType f.name = .zip
    · rw [getFiles, if_pos hz] at h
      cases hzd : zipData f with
      | error e => simp [extractZip, hzd] at h
      | ok entries =>
        simp only [extractZip, hzd] at h
        cases hrest : getFiles zipData rest with
        | error e => rw [hrest] at h; cases h
        | ok l2 =>
          rw [hrest] at h
          simp only [Except.ok.injEq] at h
          subst h
          obtain ⟨ihA, ihB⟩ := getFiles_ok_inv zipData rest l2 hrest
          constructor
          · intro cf hcf
            rcases List.mem_append.mp hcf with hcf1 | hcf2
            · rw [extractZipLoop_eq, List.nil_append, List.mem_map] at hcf1
              obtain ⟨e, he, hcfe⟩ := hcf1
              have hke : innerKept e = true := (List.mem_filter.mp he).2
              have hm : mediaKind (getFileType e.fileName) = true := by
                rw [innerKept, Bool.and_eq_true] at hke
                exact hke.2
              subst hcfe
              rw [innerEntry]
              intro hctr
              rw [show (⟨e.fileName, e.uncompressedSize,
                    f.path ++ '/' :: e.fileName, getFileType e.fileName⟩ :
                    CatalogFile).type = getFileType e.fileName from rfl] at hctr
              rw [hctr] at hm
              cases hm
            · exact ihA cf hcf2
          · intro g hg hgz
            rcases List.mem_cons.mp hg with rfl | hg2
            · exact ⟨entries, hzd, fun cf hcf => List.mem_append.mpr (Or.inl hcf)⟩
            · obtain ⟨es, hes, hsub⟩ := ihB g hg2 hgz
              exact ⟨es, hes, fun cf hcf => List.mem_append.mpr (Or.inr (hsub cf hcf))⟩
    · rw [getFiles, if_neg hz] at h
      cases hrest : getFiles zipData rest with
      | error e => rw [hrest] at h; cases h
      | ok l2 =>
        rw [hrest] at h
        simp only [Except.ok.injEq] at h
        subst h
        obtain ⟨ihA, ihB⟩ := getFiles_ok_inv zipData rest l2 hrest
        constructor
        · intro cf hcf
          rcases List.mem_cons.mp hcf with rfl | hcf2
          · simpa using hz
          · exact ihA cf hcf2
        · intro g hg hgz
          rcases List.mem_cons.mp hg with rfl | hg2
          · exact absurd hgz hz
          · obtain ⟨es, hes, hsub⟩ := ihB g hg2 hgz
            exact ⟨es, hes, fun cf hcf => List.mem_cons_of_mem _ (hsub cf hcf)⟩

/-- A zip file whose bytes fail to parse makes the whole ZIP-aware catalog
computation fail. -/
theorem getFiles_error_of_zip_error (zipData : RawFile → Except ZipErr (List ZipEntry))
    (f : RawFile) (err : ZipErr) (hzip : getFileType f.name = .zip)
    (herr : zipData f = .error err) :
    ∀ (files : List RawFile), f ∈ files → ∃ e, getFiles zipData files = .error e
  | [], hmem => absurd hmem (List.not_mem_nil f)
  | g :: rest, hmem => by
    rcases List.mem_cons.mp hmem with rfl | hmem2
    · exact ⟨err, by rw [getFiles, if_pos hzip]; simp [extractZip, herr]⟩
    · by_cases hg : getFileType g.name = .zip
      · cases hzd : zipData g with
        | error e2 =>
          exact ⟨e2, by rw [getFiles, if_pos hg]; simp [extractZip, hzd]⟩
        | ok entries =>
          obtain ⟨e2, he2⟩ :=
            getFiles_error_of_zip_error zipData f err hzip herr rest hmem2
          exact ⟨e2, by rw [getFiles, if_pos hg]; simp [extractZip, hzd, he2]⟩
      · obtain ⟨e2, he2⟩ :=
          getFiles_error_of_zip_error zipData f err hzip herr rest hmem2
        exact ⟨e2, by rw [getFiles, if_neg hg]; simp [he2]⟩

/-- C1 counterexample: for a 5,000,000-byte file and `Range: bytes=0-` the
code computes the effective end `1,000,000` (not `999,999`) and a
`Content-Length` of `1,000,001` (not `1,000,000`), refuting the claimed
`min(start + 1,000,000 − 1, length − 1)` default. -/
theorem C1_default_end_cex :
    streamHandler [demoTorrent] demoMagnet movieName (some (("bytes=0-").toList)) =
      .video206 (some 0) (some 1000000) 5000000 ∧
    contentLengthOf (some 0) (some 1000000) = some 1000001 ∧
    (1000000 : Int) ≠ 999999 ∧ (1000001 : Int) ≠ 1000000 :=
  ⟨rfl, rfl, by decide, by decide⟩

/-- C1 amended: when the parsed end position is omitted (`NaN`) or zero,
the effective end is `min(start + 1,000,000, length − 1)` — one more than
the claimed default — so `bytes=0-` on a 5,000,000-byte file is answered
with end `1,000,000` and `Content-Length` `1,000,001`, while
`bytes=4999000-` still clamps to `4,999,999`. -/
theorem C1_default_end (sv : Int) (L : Nat) (e? : Option Int)
    (he : e? = none ∨ e? = some 0) :
    chunkEndOf (some sv) e? L = some (min (sv + 1000000) ((L : Int) - 1)) ∧
    contentLengthOf (some sv) (chunkEndOf (some sv) e? L) =
      some (min (sv + 1000000) ((L : Int) - 1) - sv + 1) ∧
    streamHandler [demoTorrent] demoMagnet movieName (some (("bytes=4999000-").toList)) =
      .video206 (some 4999000) (some 4999999) 5000000 := by
  refine ⟨?_, ?_, rfl⟩
  · rcases he with rfl | rfl <;> rfl
  · rcases he with rfl | rfl <;> rfl

/-- C1 witness: the amended default applied at start 0, length 5,000,000
and an omitted end. -/
theorem C1_default_end_witness :
    chunkEndOf (some 0) none 5000000 = some (min (0 + 1000000) ((5000000 : Int) - 1)) :=
  (C1_default_end 0 5000000 none (Or.inl rfl)).1

/-- C2 counterexample: with file length 100, `Range: bytes=50-200` has
end ≥ length yet the code answers 206 partial content with those very
bounds, and a non-numeric start (`bytes=abc-`) is also answered 206 with
`NaN` bounds — there is no 400 InvalidRange path. -/
theorem C2_no_validation_cex :
    streamHandler [shortTorrent] demoMagnet shortName (some (("bytes=50-200").toList)) =
      .video206 (some 50) (some 200) 100 ∧
    ¬((200 : Int) < 100) ∧
    streamHandler [shortTorrent] demoMagnet shortName (some (("bytes=abc-").toList)) =
      .video206 none none 100 :=
  ⟨rfl, by decide, rfl⟩

/-- C2 amended: the handler performs no range validation at all — whenever
the magnet, torrent and file resolve to a video and a Range header is
present, the response is 206 with the values computed from the header,
whatever they are; no request is rejected over its bounds. -/
theorem C2_no_validation (torrents : List Torrent) (magnet filename r ihash : List Char)
    (t : Torrent) (f : RawFile)
    (h1 : extractInfoHash magnet = some ihash)
    (h2 : torrents.find? (fun u => u.infoHash = ihash) = some t)
    (h3 : t.files.find? (fun g => g.name = filename) = some f)
    (hv : getFileType f.name = .video) :
    streamHandler torrents magnet filename (some r) =
      .video206 (parseStartEnd r).1
        (chunkEndOf (parseStartEnd r).1 (parseStartEnd r).2 f.length) f.length := by
  simp [streamHandler, h1, h2, h3, hv]

/-- C2 witness: the amended statement at a concrete nonsense range. -/
theorem C2_no_validation_witness :
    streamHandler [shortTorrent] demoMagnet shortName (some (("bytes=7-3").toList)) =
      .video206 (parseStartEnd (("bytes=7-3").toList)).1
        (chunkEndOf (parseStartEnd (("bytes=7-3").toList)).1
          (parseStartEnd (("bytes=7-3").toList)).2 shortVideoFile.length)
        shortVideoFile.length :=
  C2_no_validation [shortTorrent] demoMagnet shortName (("bytes=7-3").toList) demoHash
    shortTorrent shortVideoFile rfl rfl rfl rfl

/-- C3: `extractInfoHash` returns a value exactly when the input contains
`urn:btih:` followed by 40 hex digits of either case, whatever surrounds
the token, and the value is the captured 40 digits lowercased; on every
string lacking such a token it returns `null`. -/
theorem C3_magnet_extract (s : List Char) :
    (∀ r, extractInfoHash s = some r →
      ∃ pre run post, s = pre ++ (btihTag ++ (run ++ post)) ∧ run.length = 40 ∧
        run.all isHexDigit = true ∧ r = lowerStr run) ∧
    (extractInfoHash s = none →
      ∀ pre run post, s = pre ++ (btihTag ++ (run ++ post)) →
        ¬(run.length = 40 ∧ run.all isHexDigit = true)) := by
  constructor
  · intro r hr
    rw [extractInfoHash] at hr
    cases hf : findBtih s with
    | none => rw [hf] at hr; cases hr
    | some run =>
      rw [hf] at hr
      obtain ⟨pre, post, hdec, hlen, hhex⟩ := findBtih_some hf
      refine ⟨pre, run, post, hdec, hlen, hhex, ?_⟩
      simpa using hr.symm
  · intro hn pre run post hdec hc
    obtain ⟨hlen, hhex⟩ := hc
    have hne : findBtih s ≠ none := by
      rw [hdec]
      exact findBtih_append (findBtih_ne_none_of_try (tryBtihAt_token hlen hhex)) pre
    rw [extractInfoHash] at hn
    cases hfind : findBtih s with
    | none => exact hne hfind
    | some run2 => rw [hfind] at hn; simp at hn

/-- C3 witness: the demo magnet URI decomposes around its `urn:btih:`
token and the extracted hash is its lowercased 40 hex digits. -/
theorem C3_magnet_extract_witness :
    ∃ pre run post, demoMagnet = pre ++ (btihTag ++ (run ++ post)) ∧ run.length = 40 ∧
      run.all isHexDigit = true ∧ demoHash = lowerStr run :=
  (C3_magnet_extract demoMagnet).1 demoHash (by decide)

/-- C4 counterexample: the ZIP-aware catalog builder of `part_000` pushes
a `readme.txt` entry of kind `other` into the catalog, so not every
returned entry is of kind video or image. -/
theorem C4_catalog_kinds_cex :
    getFiles (fun _ => .ok []) [readmeFile] =
      .ok [⟨("readme.txt").toList, 7, ("readme.txt").toList, .other⟩] ∧
    FileType.other ≠ .video ∧ FileType.other ≠ .image :=
  ⟨rfl, by decide, by decide⟩

/-- C4 amended: in the ZIP-aware builder no returned entry is of kind
`zip` and every archive's kept inner media entries all reach the catalog,
but files of kind `other` are included rather than dropped; only the
`index.js` builder restricts its entries to video and image (and it never
expands archives, which classify as `other` there). -/
theorem C4_catalog_kinds (zipData : RawFile → Except ZipErr (List ZipEntry))
    (files : List RawFile) (l : List CatalogFile) (h : getFiles zipData files = .ok l) :
    (∀ cf ∈ l, cf.type ≠ .zip) ∧
    (∀ f ∈ files, getFileType f.name = .zip →
      ∃ entries, zipData f = .ok entries ∧
        ∀ cf ∈ extractZipLoop f.path entries [], cf ∈ l) ∧
    (∀ (gs : List RawFile), ∀ cf ∈ getFilesApi gs, cf.type = .video ∨ cf.type = .image) :=
  ⟨(getFiles_ok_inv zipData files l h).1, (getFiles_ok_inv zipData files l h).2,
    fun gs cf hcf => getFilesApi_kinds gs cf hcf⟩

/-- C4 witness: the inner video entry of the demo archive is not of kind
`zip`. -/
theorem C4_catalog_kinds_witness :
    (⟨("movie.mp4").toList, 111, ("archive.zip/movie.mp4").toList,
      FileType.video⟩ : CatalogFile).type ≠ FileType.zip :=
  (C4_catalog_kinds demoZipData [demoZipFile] demoCatalog rfl).1 _ (by decide)

/-- C5: when the archive bytes parse, the expander yields exactly the
non-directory central-directory entries of video or image kind, in order,
each with length equal to its uncompressed size and logical path equal to
the archive path, a `/`, and the entry name. -/
theorem C5_zip_expansion (zipData : RawFile → Except ZipErr (List ZipEntry))
    (f : RawFile) (entries : List ZipEntry) (h : zipData f = .ok entries) :
    extractZip zipData f = .ok ((entries.filter innerKept).map (innerEntry f.path)) := by
  simp [extractZip, h, extractZipLoop_eq]

/-- C5 witness: the demo archive expands to exactly its kept inner
entries. -/
theorem C5_zip_expansion_witness :
    extractZip demoZipData demoZipFile =
      .ok ((demoZipEntries.filter innerKept).map (innerEntry demoZipFile.path)) :=
  C5_zip_expansion demoZipData demoZipFile demoZipEntries rfl

/-- C6 counterexample: with one healthy video file and one unparseable
archive in the session, the whole catalog computation fails instead of
returning the sibling video entry (which it does return when the bad
archive is absent). -/
theorem C6_zip_error_cex :
    getFiles failingZipData [clipFile, badZipFile] = .error .parseError ∧
    getFiles failingZipData [clipFile] =
      .ok [⟨("clip.mp4").toList, 50, ("clip.mp4").toList, .video⟩] :=
  ⟨rfl, rfl⟩

/-- C6 amended: archive parse failure is not contained — if any zip file
of the session fails to parse, `getFiles` propagates the rejection and the
catalog request fails as a whole, returning no sibling entries. -/
theorem C6_zip_error_aborts (zipData : RawFile → Except ZipErr (List ZipEntry))
    (f : RawFile) (err : ZipErr) (hzip : getFileType f.name = .zip)
    (herr : zipData f = .error err) (files : List RawFile) (hmem : f ∈ files) :
    ∃ e, getFiles zipData files = .error e :=
  getFiles_error_of_zip_error zipData f err hzip herr files hmem

/-- C6 witness: the amended statement at the concrete broken archive. -/
theorem C6_zip_error_aborts_witness :
    ∃ e, getFiles failingZipData [clipFile, badZipFile] = .error e :=
  C6_zip_error_aborts failingZipData badZipFile ZipErr.parseError (by decide) rfl
    [clipFile, badZipFile] (by decide)

/-- C7 counterexample: a stream request resolving to an image entry with
no Range header is not rejected with 400 — `part_000` serves the whole
image file directly. -/
theorem C7_image_no_range_cex :
    streamHandler [imageTorrent] demoMagnet posterName none = .imageWhole (("jpg").toList) ∧
    StreamResponse.imageWhole (("jpg").toList) ≠ .requiresRange :=
  ⟨rfl, by decide⟩

/-- C7 amended: in the ZIP-aware server a missing Range header yields 400
only for video entries; every non-video entry (images included) is served
as a whole-file response with no Range requirement. -/
theorem C7_range_only_video (torrents : List Torrent) (magnet filename ihash : List Char)
    (t : Torrent) (f : RawFile)
    (h1 : extractInfoHash magnet = some ihash)
    (h2 : torrents.find? (fun u => u.infoHash = ihash) = some t)
    (h3 : t.files.find? (fun g => g.name = filename) = some f) :
    (getFileType f.name = .video → streamHandler torrents magnet filename none = .requiresRange) ∧
    (getFileType f.name ≠ .video →
      streamHandler torrents magnet filename none = .imageWhole ((extname f.name).drop 1)) := by
  constructor
  · intro hv; simp [streamHandler, h1, h2, h3, hv]
  · intro hv; simp [streamHandler, h1, h2, h3, hv]

/-- C7 witness: the amended statement at the concrete image file. -/
theorem C7_range_only_video_witness :
    streamHandler [imageTorrent] demoMagnet posterName none =
      .imageWhole ((extname posterFile.name).drop 1) :=
  (C7_range_only_video [imageTorrent] demoMagnet posterName demoHash imageTorrent
    posterFile rfl rfl rfl).2 (by decide)

/-- C9 counterexample: the `index.js` handler registers no close callback,
so after the sink closes the read stream is not destroyed and a later
buffer is still read — one byte arrives after the close event. -/
theorem C9_close_cex :
    runEvents closeDestroyRegisteredApi [StreamEvent.close, StreamEvent.data 1] =
      ⟨true, false, 1⟩ ∧ (1 : Nat) ≠ 0 :=
  ⟨rfl, by decide⟩

/-- C9 amended: in the `part_000` handler, which registers
`res.on('close', () => stream.destroy())`, no trace ever delivers a byte
after the sink closed, and any trace containing a close event ends with
the read stream destroyed; the `index.js` handler gives no such
guarantee. -/
theorem C9_close_destroy (evs : List StreamEvent) :
    (runEvents closeDestroyRegistered evs).bytesAfterClose = 0 ∧
    (StreamEvent.close ∈ evs → (runEvents closeDestroyRegistered evs).destroyed = true) :=
  ⟨(foldl_inv evs initPipeState ⟨rfl, fun h => Bool.noConfusion h⟩).1,
    fun h => foldl_close_destroyed evs initPipeState h⟩

/-- C9 witness: a trace consisting of one close event leaves the stream
destroyed. -/
theorem C9_close_destroy_witness :
    (runEvents closeDestroyRegistered [StreamEvent.close]).destroyed = true :=
  (C9_close_destroy [StreamEvent.close]).2 (List.mem_cons_self _ _)

/-- C10: an explicit end position of 0 (as in `bytes=0-0`) parses exactly
like an omitted end, because `Number('0')` is falsy like `Number('')`; the
effective end is therefore the default `min(start + 1,000,000, length − 1)`
window rather than the requested single byte. -/
theorem C10_zero_end_default (s : List Char) (hs : ('-') ∉ s) :
    parseStartEnd (bytesTag ++ (s ++ ['-', '0'])) =
      parseStartEnd (bytesTag ++ (s ++ ['-'])) ∧
    (∀ (sv : Int) (L : Nat), chunkEndOf (some sv) (some 0) L = chunkEndOf (some sv) none L) ∧
    (∀ (sv : Int) (L : Nat),
      chunkEndOf (some sv) (some 0) L = some (min (sv + 1000000) ((L : Int) - 1))) ∧
    streamHandler [demoTorrent] demoMagnet movieName (some (("bytes=0-0").toList)) =
      .video206 (some 0) (some 1000000) 5000000 := by
  refine ⟨?_, fun sv L => rfl, fun sv L => rfl, rfl⟩
  have h1 : removeBytesTag (bytesTag ++ (s ++ ['-', '0'])) = s ++ '-' :: ['0'] := rfl
  have h2 : removeBytesTag (bytesTag ++ (s ++ ['-'])) = s ++ '-' :: [] := rfl
  rw [parseStartEnd, parseStartEnd, h1, h2, splitOnDash_append _ _ hs,
    splitOnDash_append _ _ hs]
  rfl

/-- C10 witness: the parse equality applied at start piece `0`. -/
theorem C10_zero_end_default_witness :
    parseStartEnd (bytesTag ++ (['0'] ++ ['-', '0'])) =
      parseStartEnd (bytesTag ++ (['0'] ++ ['-'])) :=
  (C10_zero_end_default ['0'] (by decide)).1

end MoviesBackend
